import Mathlib

/-!
Verification development for the iterative CTF decoder agent
(`src/decoders.py`, `src/analysis.py`, `src/state.py`, `src/agent.py`).

Texts are modelled as `List Char` (Python `str` is a sequence of Unicode
code points).  Python floats are modelled by exact rationals / reals: every
numeric comparison performed by the program has a margin that is many orders of
magnitude larger than double rounding error, so the exact model coincides
with the float computation on all inputs considered here.
-/

set_option exponentiation.threshold 600

namespace Decoder

/-- Convert a Lean string literal to the `List Char` text representation. -/
def chars (s : String) : List Char := s.data

/-! ## Character classes (`string` module constants used by `analysis.py`) -/

/-- Membership in Python's `string.printable`
(digits, letters, punctuation, and the whitespace ` \t\n\r\x0b\x0c`),
i.e. code points 0x20–0x7e together with 9–13. -/
def pyPrintableChar (c : Char) : Bool :=
  (32 ≤ c.toNat && c.toNat ≤ 126) || (9 ≤ c.toNat && c.toNat ≤ 13)

/-- Python `str.isalpha` restricted to ASCII (the only characters the
agent's inputs in this development contain; non-ASCII Unicode letters are
outside the modelled range). -/
def pyIsAlpha (c : Char) : Bool :=
  ('a' ≤ c && c ≤ 'z') || ('A' ≤ c && c ≤ 'Z')

/-- Whitespace stripped by Python `str.strip` / `str.rstrip`, restricted
to ASCII: space, \t, \n, \r, \x0b, \x0c (the rare non-ASCII Unicode
whitespace code points Python also strips are outside the modelled range). -/
def pyWhitespace (c : Char) : Bool :=
  c = ' ' || c = '\t' || c = '\n' || (c.toNat = 13 || c.toNat = 11 || c.toNat = 12)

/-- Python `str.rstrip()`. -/
def pyRstrip (l : List Char) : List Char :=
  (l.reverse.dropWhile pyWhitespace).reverse

/-- Python `str.strip()`. -/
def pyStrip (l : List Char) : List Char :=
  (pyRstrip l).dropWhile pyWhitespace

/-- Python `str.lower` on ASCII (the flag regexes are case-insensitive;
their patterns are ASCII only). -/
def pyLowerChar (c : Char) : Char :=
  if 'A' ≤ c && c ≤ 'Z' then Char.ofNat (c.toNat + 32) else c

/-- `HEX_CHARS = '0123456789abcdefABCDEF'` from `analysis.py` /
`decoders.py`. -/
def hexChar (c : Char) : Bool :=
  ('0' ≤ c && c ≤ '9') || ('a' ≤ c && c ≤ 'f') || ('A' ≤ c && c ≤ 'F')

/-- `BASE64_CHARS = 'A-Za-z0-9+/='` from `analysis.py`. -/
def base64Char (c : Char) : Bool :=
  ('A' ≤ c && c ≤ 'Z') || ('a' ≤ c && c ≤ 'z') || ('0' ≤ c && c ≤ '9') ||
    c = '+' || c = '/' || c = '='

/-! ## `analysis.py`: text characterisation -/

/-- `identify_charset` from `analysis.py`: first-match-wins classification
into empty / hex / base64 / alphabetic / printable / binary.  The hex test
runs on `text.replace(' ', '')`; the alphabetic test requires more than 70%
letters (`alpha_count / len(text) > 0.7`, modelled exactly as
`10 * alpha_count > 7 * len`). -/
def identify_charset (text : List Char) : String :=
  if text = [] then "empty"
  else if (text.filter (· ≠ ' ')).all hexChar then "hex"
  else if text.all base64Char then "base64"
  else if text.all pyPrintableChar then
    if 7 * text.length < 10 * (text.filter pyIsAlpha).length then "alphabetic"
    else "printable"
  else "binary"

/-- The distinct characters of `text` paired, via `List.count`, with their
multiplicities — the value multiset of `collections.Counter(text)`. -/
def counterValues (text : List Char) : List Nat :=
  text.dedup.map (fun c => text.count c)

/-- Auxiliary product `∏ k ^ (b*k)` over the character multiplicities,
used to decide comparisons of the Shannon entropy exactly. -/
def entropyProd (text : List Char) (b : Nat) : Nat :=
  ((counterValues text).map (fun k => k ^ (b * k))).prod

/-- Decides `calculate_entropy text < a / b` exactly (`b > 0`).  With
`n = len(text)` and character multiplicities `k_c`, the Shannon entropy is
`log2 n - (1/n) * Σ k_c * log2 k_c`, so `entropy < a/b` iff
`n^(b*n) < 2^(a*n) * ∏ k_c^(b*k_c)`; `calculate_entropy` returns `0.0` for
empty text.  The equivalence with the real-valued entropy is proved below
in `entropyLtb_iff`. -/
def entropyLtb (text : List Char) (a b : Nat) : Bool :=
  if text = [] then decide (0 < a)
  else decide (text.length ^ (b * text.length) < 2 ^ (a * text.length) * entropyProd text b)

/-- Decides `calculate_entropy text > a / b` exactly (`b > 0`); see
`entropyLtb`. -/
def entropyGtb (text : List Char) (a b : Nat) : Bool :=
  if text = [] then false
  else decide (2 ^ (a * text.length) * entropyProd text b < text.length ^ (b * text.length))

/-- `calculate_entropy` from `analysis.py` as an exact real number: the
Shannon entropy `-Σ p log2 p` over the character-frequency distribution
(`collections.Counter` values, here indexed by the distinct characters),
`0.0` for empty text.  The source computes this in floating point; every
comparison the program makes against it has a margin far above double
rounding error.  The decidable comparators `entropyLtb` / `entropyGtb`
used by the executable pipeline are proved equivalent to comparisons of
this function in `entropyLtb_iff` / `entropyGtb_iff` below. -/
noncomputable def calculate_entropy (text : List Char) : ℝ :=
  if text = [] then 0
  else
    -((text.dedup.map (fun c =>
        ((text.count c : ℝ) / text.length) *
          Real.logb 2 ((text.count c : ℝ) / text.length))).sum)

/-- `calculate_printable_ratio` from `analysis.py`: the fraction of
characters lying in `string.printable`; `0.0` for empty text. -/
def calculate_printable_ratio (text : List Char) : ℚ :=
  if text = [] then 0
  else mkRat (text.filter pyPrintableChar).length text.length

/-- `has_padding` from `analysis.py`: the right-stripped text ends in `=`
(the separate `==` test in the source is subsumed by the `=` test). -/
def has_padding (text : List Char) : Bool :=
  (pyRstrip text).getLast? = some '='

/-- Python regex `\s` on ASCII: space, \t, \n, \r, \x0b, \x0c. -/
def regexSpace (c : Char) : Bool := pyWhitespace c

/-- Does `text` start with `http://` or `https://` followed by at least one
non-whitespace character?  (One match position of `URL_PATTERN =
r'https?://[^\s]+'`.) -/
def urlAtStart (text : List Char) : Bool :=
  match text with
  | 'h' :: 't' :: 't' :: 'p' :: rest =>
    (match rest with
     | ':' :: '/' :: '/' :: c :: _ => !regexSpace c
     | 's' :: ':' :: '/' :: '/' :: c :: _ => !regexSpace c
     | _ => false)
  | _ => false

/-- `contains_url` from `analysis.py`: `URL_PATTERN.search`, i.e. a match
of `https?://[^\s]+` at some position of the text. -/
def contains_url (text : List Char) : Bool :=
  match text with
  | [] => false
  | _ :: rest => urlAtStart text || contains_url rest

/-- The flag-pattern heads, lower-cased: `FLAG_PATTERNS` of `analysis.py`
consists of the case-insensitive regexes `flag{…}`, `HTB{…}`, `CTF{…}`,
`picoCTF{…}`, `FLAG{…}`, `FLG{…}`; case-insensitively, `FLAG` duplicates
`flag`, so the distinct heads are these five. -/
def flagHeads : List (List Char) :=
  [chars "flag", chars "htb", chars "ctf", chars "picoctf", chars "flg"]

/-- Does the (already lower-cased) text start with `head{[^}]+}` — the
head, an opening brace, one or more non-`}` characters, and a `}`? -/
def flagAtStart (head low : List Char) : Bool :=
  match low.drop head.length with
  | c :: rest => (head.isPrefixOf low) && c = '{' &&
      (match rest with
       | d :: more => d ≠ '}' && more.contains '}'
       | [] => false)
  | [] => false

/-- One match position of any flag pattern inside the lower-cased text. -/
def flagSearch (low : List Char) : Bool :=
  match low with
  | [] => false
  | _ :: rest => flagHeads.any (fun h => flagAtStart h low) || flagSearch rest

/-- `contains_flag` from `analysis.py`: some `FLAG_PATTERNS` regex matches
somewhere in the text (all patterns are `re.IGNORECASE`, modelled by
lower-casing the text first). -/
def contains_flag (text : List Char) : Bool :=
  flagSearch (text.map pyLowerChar)

/-- `looks_like_hash` from `analysis.py`: after `strip()`, all characters
are hex digits and the length is exactly 32 / 40 / 64, mapped to
MD5 / SHA1 / SHA256. -/
def looks_like_hash (text : List Char) : Option String :=
  let t := pyStrip text
  if !(t.all hexChar) then none
  else if t.length = 32 then some "MD5"
  else if t.length = 40 then some "SHA1"
  else if t.length = 64 then some "SHA256"
  else none

/-- `TextAnalysis` from `analysis.py`.  The source also stores the float
`entropy`; here entropy comparisons are recomputed exactly from `text`
(see `entropyLtb`), so no separate field is carried. -/
structure TextAnalysis where
  text : List Char
  length : Nat
  charset : String
  padding : Bool
  printable_ratio : ℚ
  contains_url : Bool
  contains_flag : Bool
  hash_type : Option String
  deriving Repr, DecidableEq

/-- `TextAnalysis.from_text` / `analyze_encoding_characteristics`. -/
def analyze_encoding_characteristics (text : List Char) : TextAnalysis :=
  { text := text
    length := text.length
    charset := identify_charset text
    padding := has_padding text
    printable_ratio := calculate_printable_ratio text
    contains_url := contains_url text
    contains_flag := contains_flag text
    hash_type := looks_like_hash text }

/-! ## `analysis.py`: encoding identification -/

/-- `identify_likely_encoding` from `analysis.py`: the confidence table,
a dict with insertion order base64, hex, rot13, url (Python dicts preserve
insertion order). -/
def identify_likely_encoding (a : TextAnalysis) : List (String × ℚ) :=
  [("base64",
     if a.charset = "base64" then (if a.padding then mkRat 95 100 else mkRat 85 100)
     else if a.length % 4 = 0 && (a.charset = "printable" || a.charset = "base64") then mkRat 6 10
     else 0),
   ("hex",
     if a.charset = "hex" then (if a.length % 2 = 0 then mkRat 95 100 else mkRat 90 100) else 0),
   ("rot13", if a.charset = "alphabetic" then mkRat 70 100 else 0),
   ("url", if a.text.contains '%' then mkRat 90 100 else 0)]

/-! ## `decoders.py`

`DecoderError` carries only a message that the orchestrator never
inspects; decoder failure is therefore modelled as `Except.error ()`. -/

/-- Value of a standard Base64 alphabet character (`A-Za-z0-9+/`). -/
def b64CharVal (c : Char) : Option Nat :=
  if 'A' ≤ c && c ≤ 'Z' then some (c.toNat - 65)
  else if 'a' ≤ c && c ≤ 'z' then some (c.toNat - 97 + 26)
  else if '0' ≤ c && c ≤ '9' then some (c.toNat - 48 + 52)
  else if c = '+' then some 62
  else if c = '/' then some 63
  else none

/-- CPython `binascii.a2b_base64` in non-strict mode (what
`base64.b64decode` calls): characters outside the alphabet are discarded;
`=` is ignored unless at least two data characters are pending in the
current quad, in which case enough accumulated pads end the decode
successfully; at end of input a pending quad of 1, 2 or 3 characters is an
error.  Arguments: input, `quad_pos`, pending bits, pad count. -/
def b64Machine : List Char → Nat → Nat → Nat → Option (List Nat)
  | [], 0, _, _ => some []
  | [], _ + 1, _, _ => none
  | c :: rest, quad, left, pads =>
    if c = '=' then
      if 2 ≤ quad then
        if 4 ≤ quad + (pads + 1) then some []
        else b64Machine rest quad left (pads + 1)
      else b64Machine rest quad left pads
    else
      match b64CharVal c with
      | none => b64Machine rest quad left pads
      | some v =>
        match quad with
        | 0 => b64Machine rest 1 v 0
        | 1 => (b64Machine rest 2 (v % 16) 0).map (fun bs => (left * 4 + v / 16) :: bs)
        | 2 => (b64Machine rest 3 (v % 4) 0).map (fun bs => (left * 16 + v / 4) :: bs)
        | _ => (b64Machine rest 0 0 0).map (fun bs => (left * 64 + v) :: bs)

/-- `base64.b64decode` on a `str` argument: the string must be pure ASCII
(otherwise `str.encode('ascii')` raises `ValueError`, caught by
`decode_base64`), then the machine above runs. -/
def b64decode (text : List Char) : Option (List Nat) :=
  if text.any (fun c => 127 < c.toNat) then none
  else b64Machine text 0 0 0

/-- Is `b` a UTF-8 continuation byte (`0x80–0xBF`)? -/
def utf8Cont (b : Nat) : Bool := 128 ≤ b && b ≤ 191

/-- Valid second byte after the given UTF-8 lead byte (encodes the
shortest-form and surrogate restrictions). -/
def utf8Second (b0 b1 : Nat) : Bool :=
  if b0 = 224 then 160 ≤ b1 && b1 ≤ 191
  else if b0 = 237 then 128 ≤ b1 && b1 ≤ 159
  else if b0 = 240 then 144 ≤ b1 && b1 ≤ 191
  else if b0 = 244 then 128 ≤ b1 && b1 ≤ 143
  else utf8Cont b1

/-- Strict UTF-8 decoding of a byte sequence (`bytes.decode('utf-8')`):
`none` models `UnicodeDecodeError`. -/
def utf8DecodeStrict : List Nat → Option (List Char)
  | [] => some []
  | b :: rest =>
    if b < 128 then (utf8DecodeStrict rest).map (Char.ofNat b :: ·)
    else if 194 ≤ b && b ≤ 223 then
      match rest with
      | b1 :: r2 =>
        if utf8Cont b1 then
          (utf8DecodeStrict r2).map (Char.ofNat ((b - 192) * 64 + (b1 - 128)) :: ·)
        else none
      | [] => none
    else if 224 ≤ b && b ≤ 239 then
      match rest with
      | b1 :: b2 :: r3 =>
        if utf8Second b b1 && utf8Cont b2 then
          (utf8DecodeStrict r3).map
            (Char.ofNat ((b - 224) * 4096 + (b1 - 128) * 64 + (b2 - 128)) :: ·)
        else none
      | _ => none
    else if 240 ≤ b && b ≤ 244 then
      match rest with
      | b1 :: b2 :: b3 :: r4 =>
        if utf8Second b b1 && utf8Cont b2 && utf8Cont b3 then
          (utf8DecodeStrict r4).map
            (Char.ofNat ((b - 240) * 262144 + (b1 - 128) * 4096 + (b2 - 128) * 64 + (b3 - 128)) :: ·)
        else none
      | _ => none
    else none

/-- The UTF-8 replacement character U+FFFD. -/
def replChar : Char := Char.ofNat 65533

/-- UTF-8 decoding with `errors='replace'`, fuelled so that the recursion
is structural (every step consumes at least one byte, so `length` fuel
always suffices; the fuel-exhausted branch is unreachable from
`utf8DecodeReplace`). -/
def utf8DecodeReplaceAux : Nat → List Nat → List Char
  | 0, _ => []
  | _ + 1, [] => []
  | fuel + 1, b :: rest =>
    if b < 128 then Char.ofNat b :: utf8DecodeReplaceAux fuel rest
    else if 194 ≤ b && b ≤ 223 then
      match rest with
      | b1 :: r2 =>
        if utf8Cont b1 then Char.ofNat ((b - 192) * 64 + (b1 - 128)) :: utf8DecodeReplaceAux fuel r2
        else replChar :: utf8DecodeReplaceAux fuel rest
      | [] => [replChar]
    else if 224 ≤ b && b ≤ 239 then
      match rest with
      | b1 :: r2 =>
        if utf8Second b b1 then
          match r2 with
          | b2 :: r3 =>
            if utf8Cont b2 then
              Char.ofNat ((b - 224) * 4096 + (b1 - 128) * 64 + (b2 - 128)) ::
                utf8DecodeReplaceAux fuel r3
            else replChar :: utf8DecodeReplaceAux fuel r2
          | [] => [replChar]
        else replChar :: utf8DecodeReplaceAux fuel rest
      | [] => [replChar]
    else if 240 ≤ b && b ≤ 244 then
      match rest with
      | b1 :: r2 =>
        if utf8Second b b1 then
          match r2 with
          | b2 :: r3 =>
            if utf8Cont b2 then
              match r3 with
              | b3 :: r4 =>
                if utf8Cont b3 then
                  Char.ofNat
                      ((b - 240) * 262144 + (b1 - 128) * 4096 + (b2 - 128) * 64 + (b3 - 128)) ::
                    utf8DecodeReplaceAux fuel r4
                else replChar :: utf8DecodeReplaceAux fuel r3
              | [] => [replChar]
            else replChar :: utf8DecodeReplaceAux fuel r2
          | [] => [replChar]
        else replChar :: utf8DecodeReplaceAux fuel rest
      | [] => [replChar]
    else replChar :: utf8DecodeReplaceAux fuel rest

/-- UTF-8 decoding with `errors='replace'` (used by `urllib.parse.unquote`):
each maximal subpart of an ill-formed sequence becomes one U+FFFD
(CPython's W3C-style behaviour, validated against `bytes.decode('utf-8',
'replace')`). -/
def utf8DecodeReplace (bs : List Nat) : List Char :=
  utf8DecodeReplaceAux bs.length bs

/-- Lower-case hex digits of one byte (`bytes.hex()`). -/
def byteToHex (b : Nat) : List Char :=
  let dig := fun n => if n < 10 then Char.ofNat (48 + n) else Char.ofNat (97 + n - 10)
  [dig (b / 16), dig (b % 16)]

/-- `bytes.hex()`: lower-case hex string of a byte sequence. -/
def bytesToHex (bs : List Nat) : List Char := bs.flatMap byteToHex

/-- A standard Base64 alphabet character from a 6-bit value. -/
def b64Digit (v : Nat) : Char :=
  if v < 26 then Char.ofNat (65 + v)
  else if v < 52 then Char.ofNat (97 + v - 26)
  else if v < 62 then Char.ofNat (48 + v - 52)
  else if v = 62 then '+' else '/'

/-- `base64.b64encode` of a byte sequence (as characters). -/
def b64encode : List Nat → List Char
  | [] => []
  | [b0] => [b64Digit (b0 / 4), b64Digit (b0 % 4 * 16), '=', '=']
  | [b0, b1] => [b64Digit (b0 / 4), b64Digit (b0 % 4 * 16 + b1 / 16), b64Digit (b1 % 16 * 4), '=']
  | b0 :: b1 :: b2 :: rest =>
    b64Digit (b0 / 4) :: b64Digit (b0 % 4 * 16 + b1 / 16) ::
      b64Digit (b1 % 16 * 4 + b2 / 64) :: b64Digit (b2 % 64) :: b64encode rest

/-- `decode_base64` from `decoders.py`: `b64decode`, then strict UTF-8
decoding of the bytes, falling back to `decoded.hex()`. -/
def decode_base64 (encoded_text : List Char) : Except Unit (List Char) :=
  match b64decode encoded_text with
  | none => .error ()
  | some bs =>
    match utf8DecodeStrict bs with
    | some s => .ok s
    | none => .ok (bytesToHex bs)

/-- Hex digit value (`0-9a-fA-F`). -/
def hexDigitVal (c : Char) : Option Nat :=
  if '0' ≤ c && c ≤ '9' then some (c.toNat - 48)
  else if 'a' ≤ c && c ≤ 'f' then some (c.toNat - 97 + 10)
  else if 'A' ≤ c && c ≤ 'F' then some (c.toNat - 65 + 10)
  else none

/-- `bytes.fromhex` on an even-length string of hex digits. -/
def hexPairsToBytes : List Char → List Nat
  | hi :: lo :: rest =>
    (((hexDigitVal hi).getD 0) * 16 + ((hexDigitVal lo).getD 0)) :: hexPairsToBytes rest
  | _ => []

/-- `decode_hex` from `decoders.py`: strip spaces/newlines/tabs, require
hex digits and even length, `bytes.fromhex`, then strict UTF-8 with a
`base64.b64encode` fallback. -/
def decode_hex (encoded_text : List Char) : Except Unit (List Char) :=
  if !((encoded_text.filter (fun c => c ≠ ' ' && c ≠ '\n' && c ≠ '\t')).all hexChar) then
    .error ()
  else if (encoded_text.filter (fun c => c ≠ ' ' && c ≠ '\n' && c ≠ '\t')).length % 2 ≠ 0 then
    .error ()
  else
    match utf8DecodeStrict
        (hexPairsToBytes (encoded_text.filter (fun c => c ≠ ' ' && c ≠ '\n' && c ≠ '\t'))) with
    | some s => .ok s
    | none =>
      .ok (b64encode
        (hexPairsToBytes (encoded_text.filter (fun c => c ≠ ' ' && c ≠ '\n' && c ≠ '\t'))))

/-- The ROT13 map on one character (`decode_rot13`'s per-character logic). -/
def rot13Char (c : Char) : Char :=
  if 'a' ≤ c && c ≤ 'z' then Char.ofNat ((c.toNat - 97 + 13) % 26 + 97)
  else if 'A' ≤ c && c ≤ 'Z' then Char.ofNat ((c.toNat - 65 + 13) % 26 + 65)
  else c

/-- `decode_rot13` from `decoders.py`: total, never raises. -/
def decode_rot13 (encoded_text : List Char) : Except Unit (List Char) :=
  .ok (encoded_text.map rot13Char)

/-- A maximal run of `%hh` escapes at the front of the text: the decoded
bytes together with the remaining text (helper for `unquote`). -/
def collectEscapes : List Char → List Nat × List Char
  | '%' :: h :: lo :: rest =>
    match hexDigitVal h, hexDigitVal lo with
    | some vh, some vlo =>
      let (bs, r) := collectEscapes rest
      ((vh * 16 + vlo) :: bs, r)
    | _, _ => ([], '%' :: h :: lo :: rest)
  | l => ([], l)

/-- `urllib.parse.unquote`: each maximal run of `%hh` escapes is decoded
as UTF-8 with `errors='replace'`; a `%` not followed by two hex digits is
literal.  Structured with fuel (each step consumes at least one character,
so `length` fuel always suffices). -/
def pyUnquoteAux : Nat → List Char → List Char
  | 0, l => l
  | _ + 1, [] => []
  | fuel + 1, c :: t =>
    if c = '%' then
      match t with
      | h :: lo :: rest =>
        match hexDigitVal h, hexDigitVal lo with
        | some vh, some vlo =>
          let (bs, r) := collectEscapes rest
          utf8DecodeReplace ((vh * 16 + vlo) :: bs) ++ pyUnquoteAux fuel r
        | _, _ => '%' :: pyUnquoteAux fuel t
      | _ => '%' :: pyUnquoteAux fuel t
    else c :: pyUnquoteAux fuel t

/-- `urllib.parse.unquote` (default UTF-8, `errors='replace'`). -/
def pyUnquote (l : List Char) : List Char := pyUnquoteAux l.length l

/-- `decode_url` from `decoders.py`: requires a `%`, unquotes, and treats
an unchanged result as failure. -/
def decode_url (encoded_text : List Char) : Except Unit (List Char) :=
  if !(encoded_text.contains '%') then .error ()
  else if pyUnquote encoded_text = encoded_text then .error ()
  else .ok (pyUnquote encoded_text)

/-- The fixed decoder table, in registration order base64, hex, rot13,
url.  `decoders.try_all_decoders` and the agent's `self.decoders` dict
hold exactly these entries in exactly this order. -/
def decodersList : List (String × (List Char → Except Unit (List Char))) :=
  [("base64", decode_base64), ("hex", decode_hex), ("rot13", decode_rot13), ("url", decode_url)]

/-- `try_all_decoders` from `decoders.py`: run every decoder in
registration order, keeping the successful results that differ from the
input. -/
def try_all_decoders (encoded_text : List Char) : List (String × List Char) :=
  decodersList.foldr
    (fun (p : String × (List Char → Except Unit (List Char))) acc =>
      match p.2 encoded_text with
      | .ok r => if r ≠ encoded_text then (p.1, r) :: acc else acc
      | .error _ => acc)
    []

/-! ## `state.py` -/

/-- `DecoderState` from `state.py`.  `attempted_decodings` is a Python
`set` of `(text, encoding_type)` pairs; its contents are modelled as the
insertion-ordered list of its distinct elements (the set's *membership* is
deterministic; only its *iteration order* is not, and that is abstracted
at `to_dict`, see `Result`). -/
structure DecoderState where
  current_text : List Char
  original_text : List Char
  encoding_chain : List String
  text_history : List (List Char)
  iteration_count : Nat
  max_iterations : Nat
  is_complete : Bool
  completion_reason : String
  confidence_scores : List ℚ
  attempted_decodings : List (List Char × String)
  deriving Repr, DecidableEq

/-- The dataclass constructor followed by `__post_init__`, which seeds
`text_history = [original_text]` (whatever `current_text` was passed). -/
def mkDecoderState (current_text original_text : List Char) (max_iterations : Nat) :
    DecoderState :=
  { current_text := current_text
    original_text := original_text
    encoding_chain := []
    text_history := [original_text]
    iteration_count := 0
    max_iterations := max_iterations
    is_complete := false
    completion_reason := ""
    confidence_scores := []
    attempted_decodings := [] }

/-- Adding an element to a Python `set`, modelled on the
insertion-ordered element list: a no-op when already present. -/
def setAdd (s : List (List Char × String)) (x : List Char × String) :
    List (List Char × String) :=
  if x ∈ s then s else s ++ [x]

/-- `DecoderState.record_decode`: append to `encoding_chain`,
`text_history`, `confidence_scores`, set `current_text` to the result,
increment `iteration_count`, and mark `(text_history[-2], encoding_type)`
as attempted (guarded by `len(text_history) > 1`). -/
def record_decode (s : DecoderState) (encoding_type : String) (result : List Char)
    (confidence : ℚ) : DecoderState :=
  let history := s.text_history ++ [result]
  { s with
    encoding_chain := s.encoding_chain ++ [encoding_type]
    text_history := history
    current_text := result
    confidence_scores := s.confidence_scores ++ [confidence]
    iteration_count := s.iteration_count + 1
    attempted_decodings :=
      if 1 < history.length then
        match history.dropLast.getLast? with
        | some prev => setAdd s.attempted_decodings (prev, encoding_type)
        | none => s.attempted_decodings
      else s.attempted_decodings }

/-- `DecoderState.is_loop_detected`: (a) `current_text` occurs in
`text_history[:-1]`; (b) `text_history[-2] == current_text` (when the
history has more than one entry); (c) a period-2 oscillation
`history[-1] == history[-3] and history[-2] == history[-4]` (when the
history has at least four entries). -/
def is_loop_detected (s : DecoderState) : Bool :=
  let r := s.text_history.reverse
  (s.current_text ∈ s.text_history.dropLast)
    || (match s.text_history.dropLast.getLast? with
        | some last_text => last_text = s.current_text
        | none => false)
    || (4 ≤ s.text_history.length && r[0]? = r[2]? && r[1]? = r[3]?)

/-- `DecoderState.should_continue`, which also writes `completion_reason`
on the `max_iterations` / loop exits; returned as (flag, updated state). -/
def should_continue (s : DecoderState) : Bool × DecoderState :=
  if s.is_complete then (false, s)
  else if s.max_iterations ≤ s.iteration_count then
    (false, { s with completion_reason := "max_iterations_reached" })
  else if is_loop_detected s then
    (false, { s with completion_reason := "loop_detected" })
  else (true, s)

/-- The `Result` dictionary produced by `DecoderState.to_dict` plus the
`success` key added by `DecoderAgent.decode`. -/
structure Result where
  original_text : List Char
  final_text : List Char
  encoding_chain : List String
  iterations : Nat
  complete : Bool
  reason : String
  history : List (List Char)
  confidence_scores : List ℚ
  attempted_decodings : List (List Char × String)
  success : Bool
  deriving Repr, DecidableEq

/-- `DecoderState.to_dict` (with the `success` key of `decode`).  The
`for text, decoder in self.attempted_decodings` iteration over the Python
`set` has no specified order; it is modelled by an `enum` parameter that
may rearrange the set's element list arbitrarily.  Snippets are
`text[:50]`. -/
def to_dict (enum : List (List Char × String) → List (List Char × String))
    (s : DecoderState) : Result :=
  { original_text := s.original_text
    final_text := s.current_text
    encoding_chain := s.encoding_chain
    iterations := s.iteration_count
    complete := s.is_complete
    reason := s.completion_reason
    history := s.text_history
    confidence_scores := s.confidence_scores
    attempted_decodings := (enum s.attempted_decodings).map (fun p => (p.1.take 50, p.2))
    success := s.is_complete }

/-! ## `agent.py` -/

/-- Stable insertion of an entry into a list sorted by descending
confidence: walk past strictly greater entries, so that among equal
confidences earlier entries stay first. -/
def insertDesc (x : String × ℚ) : List (String × ℚ) → List (String × ℚ)
  | [] => [x]
  | y :: ys => if x.2 < y.2 then y :: insertDesc x ys else x :: y :: ys

/-- `sorted(confidence_scores.items(), key=value, reverse=True)`: Python's
sort is stable, so equal confidences keep dict insertion order; modelled
by a stable insertion sort. -/
def sortDesc : List (String × ℚ) → List (String × ℚ)
  | [] => []
  | x :: xs => insertDesc x (sortDesc xs)

/-- The `for` loop of `_select_decoder`: the first entry of the sorted
list whose confidence exceeds the 0.3 threshold. -/
def firstAboveThreshold : List (String × ℚ) → Option (String × ℚ)
  | [] => none
  | p :: rest => if mkRat 3 10 < p.2 then some p else firstAboveThreshold rest

/-- `DecoderAgent._select_decoder`: sort by descending confidence and
return the first entry above the minimum confidence threshold 0.3
(the source's `(None, 0.0)` is modelled as `none`). -/
def select_decoder (confidence_scores : List (String × ℚ)) : Option (String × ℚ) :=
  firstAboveThreshold (sortDesc confidence_scores)

/-- `DecoderAgent._apply_decoder`: unknown names and `DecoderError`s both
yield `(False, text)`. -/
def apply_decoder (decoder_name : String) (text : List Char) : Bool × List Char :=
  match decodersList.lookup decoder_name with
  | none => (false, text)
  | some f =>
    match f text with
    | .ok r => (true, r)
    | .error _ => (false, text)

/-- `DecoderAgent._try_alternative_decoders`: the first result of
`try_all_decoders`, with the fixed fallback confidence 0.7. -/
def try_alternative_decoders (text : List Char) : Option (String × List Char × ℚ) :=
  match try_all_decoders text with
  | [] => none
  | (name, decoded) :: _ => some (name, decoded, mkRat 7 10)

/-- `validate_decoded_result` returns this dict. -/
structure Validation where
  status : String
  reason : String
  confidence : ℚ
  deriving Repr, DecidableEq

/-- `validate_decoded_result` from `analysis.py`: the registered
validators in registration (priority) order — no-change, flag, URL, hash,
natural language, still-encoded, improved readability, default.  The
still-encoded reason embeds `%.2f`-formatted floats in the source; it is
carried here without the numbers since no caller ever reads a PARTIAL
reason. -/
def validate_decoded_result (original decoded : List Char) : Validation :=
  let a := analyze_encoding_characteristics decoded
  if original = decoded then
    { status := "FAILED", reason := "No change after decoding", confidence := 0 }
  else if a.contains_flag then
    { status := "COMPLETE", reason := "Flag format detected", confidence := mkRat 99 100 }
  else if a.contains_url then
    { status := "COMPLETE", reason := "URL detected", confidence := mkRat 85 100 }
  else
    match a.hash_type with
    | some h =>
      { status := "COMPLETE", reason := h ++ " hash detected", confidence := mkRat 80 100 }
    | none =>
      if mkRat 19 20 < a.printable_ratio && entropyLtb decoded 9 2 then
        { status := "COMPLETE",
          reason := "Natural language detected (high printable ratio, low entropy)",
          confidence := mkRat 90 100 }
      else if a.printable_ratio < mkRat 4 5 || entropyGtb decoded 11 2 then
        { status := "PARTIAL", reason := "Still appears encoded", confidence := mkRat 60 100 }
      else if mkRat 4 5 < a.printable_ratio then
        { status := "PARTIAL", reason := "Improved readability but still ambiguous",
          confidence := mkRat 50 100 }
      else
        { status := "PARTIAL", reason := "Ambiguous result", confidence := mkRat 45 100 }

/-- Steps 4–5 of `DecoderAgent.decode_iteration` once a decoded text has
been accepted: validate, record the decode, and branch on the validation
status (COMPLETE stops with the validator's reason; FAILED stops with
`no_progress`; otherwise a detected loop stops with `loop_detected`, and a
PARTIAL result continues with `current_text` advanced). -/
def finishIteration (s : DecoderState) (name : String) (decoded : List Char) (conf : ℚ) :
    Bool × DecoderState :=
  if (validate_decoded_result s.current_text decoded).status = "COMPLETE" then
    (false, { record_decode s name decoded conf with
              is_complete := true,
              completion_reason := (validate_decoded_result s.current_text decoded).reason })
  else if (validate_decoded_result s.current_text decoded).status = "FAILED" then
    (false, { record_decode s name decoded conf with completion_reason := "no_progress" })
  else if is_loop_detected (record_decode s name decoded conf) then
    (false, { record_decode s name decoded conf with completion_reason := "loop_detected" })
  else (true, { record_decode s name decoded conf with current_text := decoded })

/-- `DecoderAgent.decode_iteration`: analyse, select a decoder (stopping
if none), apply it, fall back to `try_all_decoders` when it fails or makes
no change (stopping if that also yields nothing, with the fixed fallback
confidence 0.7), then `finishIteration`.  Returns the `should continue`
flag and the updated state. -/
def decode_iteration (s : DecoderState) : Bool × DecoderState :=
  match select_decoder (identify_likely_encoding (analyze_encoding_characteristics
      s.current_text)) with
  | none => (false, s)
  | some (decoder_name, confidence) =>
    if !(apply_decoder decoder_name s.current_text).1
        || (apply_decoder decoder_name s.current_text).2 = s.current_text then
      match try_alternative_decoders s.current_text with
      | none => (false, s)
      | some (name, decoded, conf) => finishIteration s name decoded conf
    else finishIteration s decoder_name (apply_decoder decoder_name s.current_text).2 confidence

/-- The `while state.should_continue()` loop of `DecoderAgent.decode`,
with explicit fuel.  Each continuing iteration increments
`iteration_count`, so `max_iterations + 1` fuel always runs the loop to
its natural exit (see the claim C8 theorem). -/
def decodeLoop : Nat → DecoderState → DecoderState
  | 0, s => s
  | fuel + 1, s =>
    if (should_continue s).1 then
      if (decode_iteration (should_continue s).2).1 then
        decodeLoop fuel (decode_iteration (should_continue s).2).2
      else (decode_iteration (should_continue s).2).2
    else (should_continue s).2

/-- `DecoderAgent.decode` with the set-iteration order of
`attempted_decodings` abstracted as `enum` (see `to_dict`). -/
def decodeWith (enum : List (List Char × String) → List (List Char × String))
    (encoded_text : List Char) (max_iterations : Nat) : Result :=
  let state := mkDecoderState encoded_text encoded_text max_iterations
  to_dict enum (decodeLoop (max_iterations + 1) state)

/-- `DecoderAgent.decode` with the identity set-iteration order (runs of
CPython with a fixed hash seed realise one particular order; all
order-independent fields are the same for every order, see the claim C6
theorems). -/
def decode (encoded_text : List Char) (max_iterations : Nat) : Result :=
  decodeWith (fun l => l) encoded_text max_iterations

/-! ## Specification-side definitions

These definitions follow the spec's words (not the source); the claim
theorems compare them with the source embeddings above. -/

/-- Decidable equality for decoder results. -/
instance : DecidableEq (Except Unit (List Char)) := fun a b =>
  match a, b with
  | .ok x, .ok y =>
    match decEq x y with
    | isTrue h => isTrue (congrArg Except.ok h)
    | isFalse h => isFalse (fun hh => h (by cases hh; rfl))
  | .error (), .error () => isTrue rfl
  | .ok _, .error _ => isFalse (fun hh => Except.noConfusion hh)
  | .error _, .ok _ => isFalse (fun hh => Except.noConfusion hh)

/-- The spec's state invariants (§3): `len(text_history) = iteration_count
+ 1` and `len(encoding_chain) = len(confidence_scores) = iteration_count`. -/
def stateInv (s : DecoderState) : Prop :=
  s.text_history.length = s.iteration_count + 1 ∧
    s.encoding_chain.length = s.iteration_count ∧
    s.confidence_scores.length = s.iteration_count

/-- A decoder state whose `text_history` has evolved to `h` with working
text `cur` (all other fields as freshly constructed): used to state the
loop-detection claims about concrete histories. -/
def historyState (h : List (List Char)) (cur : List Char) : DecoderState :=
  { mkDecoderState cur cur 10 with text_history := h }

/-- Spec §4.2 selection, stated in the spec's words: the first table entry
that is strictly above the 0.3 threshold and maximal in the whole table —
i.e. the highest-confidence candidate, with ties broken by the fixed
enumeration order of the table, and no decoder when nothing clears the
threshold. -/
def selectionSpecAux (full : List (String × ℚ)) : List (String × ℚ) → Option (String × ℚ)
  | [] => none
  | p :: rest =>
    if mkRat 3 10 < p.2 ∧ (∀ q ∈ full, q.2 ≤ p.2) then some p
    else selectionSpecAux full rest

/-- Spec-side decoder selection; see `selectionSpecAux`. -/
def selectionSpec (scores : List (String × ℚ)) : Option (String × ℚ) :=
  selectionSpecAux scores scores

/-- Valid Base64 in the strict sense of the claim: total length a
multiple of four, at most two trailing `=` padding characters, and every
character before the padding drawn from the standard alphabet (so `=` only
as padding and no other character outside `A-Za-z0-9+/`). -/
def validBase64Strict (text : List Char) : Prop :=
  text.length % 4 = 0 ∧
    (text.reverse.takeWhile (fun c => c = '=')).length ≤ 2 ∧
    ∀ c ∈ text.reverse.dropWhile (fun c => c = '='), (b64CharVal c).isSome

/-- The validity condition `decode_hex` enforces: after removing spaces,
newlines and tabs, only hex digits and an even number of them. -/
def hexValidInput (s : List Char) : Prop :=
  (s.filter (fun c => c ≠ ' ' && c ≠ '\n' && c ≠ '\t')).all hexChar = true ∧
    (s.filter (fun c => c ≠ ' ' && c ≠ '\n' && c ≠ '\t')).length % 2 = 0

/-- The hypothesis of claim C2: every codec either signals failure on the
text or returns it unchanged. -/
def noDecoderProgresses (text : List Char) : Prop :=
  ∀ p ∈ decodersList, p.2 text = .error () ∨ p.2 text = .ok text

/-! ## Helper lemmas -/

/-- `record_decode` leaves `current_text` equal to the last history entry. -/
theorem record_decode_lastHist (s : DecoderState) (name : String) (result : List Char)
    (conf : ℚ) :
    (record_decode s name result conf).text_history.getLast? =
      some (record_decode s name result conf).current_text := by
  simp [record_decode]

/-- `record_decode` grows each list by one and increments the count. -/
theorem record_decode_frame (s : DecoderState) (name : String) (result : List Char)
    (conf : ℚ) :
    (record_decode s name result conf).encoding_chain = s.encoding_chain ++ [name] ∧
      (record_decode s name result conf).text_history = s.text_history ++ [result] ∧
      (record_decode s name result conf).confidence_scores = s.confidence_scores ++ [conf] ∧
      (record_decode s name result conf).iteration_count = s.iteration_count + 1 := by
  simp [record_decode]

/-! ## Claim C9 -/

/-- Claim C9: for every `DecoderState`, at construction and after every
`record_decode` call, `len(text_history) = iteration_count + 1` and
`len(encoding_chain) = len(confidence_scores) = iteration_count`. -/
theorem C9_state_invariants :
    (∀ (cur orig : List Char) (m : Nat), stateInv (mkDecoderState cur orig m)) ∧
      ∀ (s : DecoderState) (name : String) (result : List Char) (conf : ℚ),
        stateInv s → stateInv (record_decode s name result conf) := by
  constructor
  · intro cur orig m
    simp [stateInv, mkDecoderState]
  · intro s name result conf h
    obtain ⟨h1, h2, h3⟩ := h
    refine ⟨?_, ?_, ?_⟩ <;> simp [record_decode, h1, h2, h3]

/-- Witness for C9: the invariants hold concretely after one recorded
decode on a fresh state. -/
theorem C9_witness :
    stateInv (record_decode (mkDecoderState (chars "x") (chars "x") 10) "base64"
      (chars "y") 1) :=
  C9_state_invariants.2 _ "base64" (chars "y") 1
    (C9_state_invariants.1 (chars "x") (chars "x") 10)

/-! ## Claim C10 -/

/-- `should_continue` only ever writes `completion_reason`. -/
theorem should_continue_fields (s : DecoderState) :
    (should_continue s).2.current_text = s.current_text ∧
      (should_continue s).2.text_history = s.text_history ∧
      (should_continue s).2.iteration_count = s.iteration_count ∧
      (should_continue s).2.max_iterations = s.max_iterations := by
  unfold should_continue
  split_ifs <;> simp

/-- `finishIteration` leaves `current_text` equal to the last history
entry, whatever the validation outcome. -/
theorem finishIteration_lastHist (s : DecoderState) (name : String) (decoded : List Char)
    (conf : ℚ) :
    (finishIteration s name decoded conf).2.text_history.getLast? =
      some (finishIteration s name decoded conf).2.current_text := by
  unfold finishIteration
  split_ifs <;> simp [record_decode]

/-- Every branch of `decode_iteration` keeps `current_text` equal to the
last history entry. -/
theorem decode_iteration_lastHist (s : DecoderState)
    (h : s.text_history.getLast? = some s.current_text) :
    (decode_iteration s).2.text_history.getLast? =
      some (decode_iteration s).2.current_text := by
  unfold decode_iteration
  split
  · exact h
  · split_ifs
    · split
      · exact h
      · apply finishIteration_lastHist
    · apply finishIteration_lastHist

/-- The decode loop keeps `current_text` equal to the last history entry. -/
theorem decodeLoop_lastHist (fuel : Nat) (s : DecoderState)
    (h : s.text_history.getLast? = some s.current_text) :
    (decodeLoop fuel s).text_history.getLast? = some (decodeLoop fuel s).current_text := by
  induction fuel generalizing s with
  | zero => exact h
  | succ fuel ih =>
    unfold decodeLoop
    have hsc := should_continue_fields s
    have h0 : (should_continue s).2.text_history.getLast? =
        some (should_continue s).2.current_text := by
      rw [hsc.2.1, hsc.1]; exact h
    split_ifs
    · exact ih _ (decode_iteration_lastHist _ h0)
    · exact decode_iteration_lastHist _ h0
    · exact h0

/-- Counterexample to claim C10: the dataclass constructor accepts distinct
`current_text` and `original_text`, and `__post_init__` seeds the history
with `original_text` alone, so at such a construction `current_text` is not
the last history entry. -/
theorem C10_counterexample :
    ¬ ((mkDecoderState (chars "a") (chars "b") 10).text_history.getLast? =
        some (mkDecoderState (chars "a") (chars "b") 10).current_text) := by
  decide

/-- Claim C10, amended: `current_text` equals the last element of
`text_history` at every construction with `current_text = original_text`
(as at every construction site in the repository) and after every
`record_decode` call on any state; consequently `final_text` of `decode`'s
result always equals the last element of its `history`. -/
theorem C10_current_is_last :
    (∀ (cur orig : List Char) (m : Nat), cur = orig →
        (mkDecoderState cur orig m).text_history.getLast? =
          some (mkDecoderState cur orig m).current_text) ∧
      (∀ (s : DecoderState) (name : String) (result : List Char) (conf : ℚ),
        (record_decode s name result conf).text_history.getLast? =
          some (record_decode s name result conf).current_text) ∧
      ∀ (t : List Char) (m : Nat),
        (decode t m).history.getLast? = some (decode t m).final_text := by
  refine ⟨?_, record_decode_lastHist, ?_⟩
  · intro cur orig m h
    subst h
    simp [mkDecoderState]
  · intro t m
    have := decodeLoop_lastHist (m + 1) (mkDecoderState t t m) (by simp [mkDecoderState])
    simpa [decode, decodeWith, to_dict] using this

/-! ## Claim C4 -/

/-- Counterexample to claim C4: with history `[A, B, A]` and current text
`A` (here `A = "a"`, `B = "b"`), `is_loop_detected` already reports a loop
— the exact-repeat rule does not wait for four history entries. -/
theorem C4_counterexample :
    is_loop_detected (historyState [chars "a", chars "b", chars "a"] (chars "a")) = true := by
  decide

/-- Claim C4, amended: a history `[A, B, A]` with current text `A` already
triggers loop detection via the exact-repeat rule (`current_text` occurs in
`text_history[:-1]`); a history `[A, B, A, B]` with current text `B` also
reports a loop — its oscillation condition `history[-1] = history[-3]`,
`history[-2] = history[-4]` holds as well, though the exact-repeat rule
fires first. -/
theorem C4_loop_detection (A B : List Char) (_hne : A ≠ B) :
    is_loop_detected (historyState [A, B, A] A) = true ∧
      is_loop_detected (historyState [A, B, A, B] B) = true ∧
      (4 ≤ ([A, B, A, B] : List (List Char)).length ∧
        [A, B, A, B].reverse[0]? = ([A, B, A, B] : List (List Char)).reverse[2]? ∧
        [A, B, A, B].reverse[1]? = ([A, B, A, B] : List (List Char)).reverse[3]?) := by
  refine ⟨?_, ?_, ?_⟩
  · simp [is_loop_detected, historyState, mkDecoderState, List.dropLast]
  · simp [is_loop_detected, historyState, mkDecoderState, List.dropLast]
  · simp

/-- Witness for C4 at `A = "a"`, `B = "b"`. -/
theorem C4_witness :
    is_loop_detected (historyState [chars "a", chars "b", chars "a"] (chars "a")) = true ∧
      is_loop_detected
        (historyState [chars "a", chars "b", chars "a", chars "b"] (chars "b")) = true ∧
      (4 ≤ ([chars "a", chars "b", chars "a", chars "b"] : List (List Char)).length ∧
        [chars "a", chars "b", chars "a", chars "b"].reverse[0]? =
          ([chars "a", chars "b", chars "a", chars "b"] : List (List Char)).reverse[2]? ∧
        [chars "a", chars "b", chars "a", chars "b"].reverse[1]? =
          ([chars "a", chars "b", chars "a", chars "b"] : List (List Char)).reverse[3]?) :=
  C4_loop_detection (chars "a") (chars "b") (by decide)

/-! ## Claim C8 -/

/-- A continuing `should_continue` returns the state unchanged, and only
continues strictly below the iteration cap. -/
theorem should_continue_true (s : DecoderState) (h : (should_continue s).1 = true) :
    (should_continue s).2 = s ∧ s.iteration_count < s.max_iterations := by
  unfold should_continue at h ⊢
  split_ifs at h ⊢ with h1 h2 h3
  exact ⟨rfl, by omega⟩

/-- `finishIteration` preserves `max_iterations` and increments
`iteration_count` by exactly one. -/
theorem finishIteration_count (s : DecoderState) (name : String) (decoded : List Char)
    (conf : ℚ) :
    (finishIteration s name decoded conf).2.max_iterations = s.max_iterations ∧
      (finishIteration s name decoded conf).2.iteration_count = s.iteration_count + 1 := by
  unfold finishIteration
  split_ifs <;> simp [record_decode]

/-- `decode_iteration` preserves `max_iterations`; it increments
`iteration_count` by exactly one when it continues, and by at most one
otherwise. -/
theorem decode_iteration_count (s : DecoderState) :
    (decode_iteration s).2.max_iterations = s.max_iterations ∧
      ((decode_iteration s).2.iteration_count = s.iteration_count ∨
        (decode_iteration s).2.iteration_count = s.iteration_count + 1) ∧
      ((decode_iteration s).1 = true →
        (decode_iteration s).2.iteration_count = s.iteration_count + 1) := by
  unfold decode_iteration
  split
  · exact ⟨rfl, Or.inl rfl, by intro h; cases h⟩
  · split_ifs
    · split
      · exact ⟨rfl, Or.inl rfl, by intro h; cases h⟩
      · exact ⟨(finishIteration_count ..).1, Or.inr (finishIteration_count ..).2,
          fun _ => (finishIteration_count ..).2⟩
    · exact ⟨(finishIteration_count ..).1, Or.inr (finishIteration_count ..).2,
        fun _ => (finishIteration_count ..).2⟩

/-- One more unit of fuel never changes the loop's result once the fuel
covers the remaining iteration budget: the loop terminates by itself. -/
theorem decodeLoop_fuel (fuel : Nat) (s : DecoderState)
    (hle : s.iteration_count ≤ s.max_iterations)
    (hfuel : s.max_iterations - s.iteration_count < fuel) :
    decodeLoop (fuel + 1) s = decodeLoop fuel s := by
  induction fuel generalizing s with
  | zero => omega
  | succ fuel ih =>
    show decodeLoop (fuel + 1 + 1) s = decodeLoop (fuel + 1) s
    unfold decodeLoop
    split_ifs with h1 h2
    · obtain ⟨heq, hlt⟩ := should_continue_true s h1
      rw [heq] at h2 ⊢
      have hcnt := (decode_iteration_count s).2.2 h2
      have hmax := (decode_iteration_count s).1
      exact ih _ (by omega) (by omega)
    · rfl
    · rfl

/-- The loop never takes `iteration_count` beyond `max_iterations`, and
preserves `max_iterations`. -/
theorem decodeLoop_count (fuel : Nat) (s : DecoderState)
    (h : s.iteration_count ≤ s.max_iterations) :
    (decodeLoop fuel s).iteration_count ≤ s.max_iterations ∧
      (decodeLoop fuel s).max_iterations = s.max_iterations := by
  induction fuel generalizing s with
  | zero => exact ⟨h, rfl⟩
  | succ fuel ih =>
    unfold decodeLoop
    split_ifs with h1 h2
    · obtain ⟨heq, hlt⟩ := should_continue_true s h1
      rw [heq] at h2 ⊢
      have hcnt := (decode_iteration_count s).2.2 h2
      have hmax := (decode_iteration_count s).1
      have := ih ((decode_iteration s).2) (by omega)
      omega
    · obtain ⟨heq, hlt⟩ := should_continue_true s h1
      rw [heq]
      have hcnt := (decode_iteration_count s).2.1
      have hmax := (decode_iteration_count s).1
      omega
    · have := should_continue_fields s
      omega

/-- Claim C8: for every input text and every `max_iterations`, `decode`
terminates and returns a structured result — the loop's outcome is already
fixed at `max_iterations + 1` fuel (extra fuel never changes it, i.e. the
`while` loop exits by itself), the returned `iterations` never exceeds
`max_iterations`, and the result carries the full structured dictionary
with `success` equal to `complete`.  The source's `except` clause
(`reason = "error: …"`) backs this up for failures outside the modelled
semantics: every failure inside the loop (`DecoderError`) is already
handled locally, so the handler is unreachable in the embedded semantics
and `decode` never raises to its caller. -/
theorem C8_decode_total : ∀ (t : List Char) (m extra : Nat),
    decodeLoop (m + 1 + extra) (mkDecoderState t t m) =
        decodeLoop (m + 1) (mkDecoderState t t m) ∧
      (decode t m).iterations ≤ m ∧
      (decode t m).success = (decode t m).complete := by
  intro t m extra
  refine ⟨?_, ?_, rfl⟩
  · induction extra with
    | zero => rfl
    | succ e ih =>
      rw [show m + 1 + (e + 1) = (m + 1 + e) + 1 by omega]
      rw [decodeLoop_fuel (m + 1 + e) (mkDecoderState t t m) (by simp [mkDecoderState])
        (by simp [mkDecoderState]; omega), ih]
  · have := decodeLoop_count (m + 1) (mkDecoderState t t m) (by simp [mkDecoderState])
    simpa [decode, decodeWith, to_dict, mkDecoderState] using this.1

/-! ## Claim C2 -/

/-- Every decoder (and every unknown decoder name) either fails or leaves
a `noDecoderProgresses` text unchanged under `_apply_decoder`. -/
theorem apply_decoder_noprog (t : List Char) (H : noDecoderProgresses t) (name : String) :
    (apply_decoder name t).1 = false ∨ (apply_decoder name t).2 = t := by
  by_cases h1 : name = "base64"
  · subst h1
    rcases H ("base64", decode_base64) (by simp [decodersList]) with h | h <;>
      dsimp only at h <;> simp [apply_decoder, decodersList, List.lookup, h]
  by_cases h2 : name = "hex"
  · subst h2
    rcases H ("hex", decode_hex) (by simp [decodersList]) with h | h <;>
      dsimp only at h <;> simp [apply_decoder, decodersList, List.lookup, h]
  by_cases h3 : name = "rot13"
  · subst h3
    rcases H ("rot13", decode_rot13) (by simp [decodersList]) with h | h <;>
      dsimp only at h <;> simp [apply_decoder, decodersList, List.lookup, h]
  by_cases h4 : name = "url"
  · subst h4
    rcases H ("url", decode_url) (by simp [decodersList]) with h | h <;>
      dsimp only at h <;> simp [apply_decoder, decodersList, List.lookup, h]
  · left
    have b1 : (name == "base64") = false := beq_eq_false_iff_ne.mpr h1
    have b2 : (name == "hex") = false := beq_eq_false_iff_ne.mpr h2
    have b3 : (name == "rot13") = false := beq_eq_false_iff_ne.mpr h3
    have b4 : (name == "url") = false := beq_eq_false_iff_ne.mpr h4
    simp [apply_decoder, decodersList, List.lookup, b1, b2, b3, b4]

/-- When no decoder progresses on a text, `try_all_decoders` filters every
result away. -/
theorem try_all_noprog (t : List Char) (H : noDecoderProgresses t) :
    try_all_decoders t = [] := by
  have hb := H ("base64", decode_base64) (by simp [decodersList])
  have hh := H ("hex", decode_hex) (by simp [decodersList])
  have hr := H ("rot13", decode_rot13) (by simp [decodersList])
  have hu := H ("url", decode_url) (by simp [decodersList])
  dsimp only at hb hh hr hu
  rcases hb with hb | hb <;> rcases hh with hh | hh <;> rcases hr with hr | hr <;>
    rcases hu with hu | hu <;> simp [try_all_decoders, decodersList, hb, hh, hr, hu]

/-- When no decoder progresses on the working text, `decode_iteration`
stops without touching the state (in the source it returns `False` before
reaching `record_decode`, leaving `completion_reason` as it was). -/
theorem decode_iteration_noprog (s : DecoderState)
    (H : noDecoderProgresses s.current_text) :
    decode_iteration s = (false, s) := by
  unfold decode_iteration
  split
  · rfl
  case h_2 p name conf heq =>
    have hguard : (!(apply_decoder name s.current_text).1
        || (apply_decoder name s.current_text).2 = s.current_text) = true := by
      rcases apply_decoder_noprog s.current_text H name with h | h <;> simp [h]
    rw [if_pos hguard, try_alternative_decoders, try_all_noprog _ H]

/-- Counterexample to claim C2: on the empty string every codec fails or
returns the input unchanged, and `decode` indeed stops before its first
iteration with `complete = false` and `iterations = 0` — but
`completion_reason` is left as the empty string, not `"no_progress"`
(the source sets `no_progress` only in the unreached FAILED-validation
branch). -/
theorem C2_counterexample :
    noDecoderProgresses (chars "") ∧
      (decode (chars "") 10).complete = false ∧
      (decode (chars "") 10).iterations = 0 ∧
      (decode (chars "") 10).reason = "" ∧
      (decode (chars "") 10).reason ≠ "no_progress" := by
  refine ⟨?_, by decide, by decide, by decide, by decide⟩
  intro p hp
  fin_cases hp
  · right; decide
  · right; decide
  · right; decide
  · left; decide

/-- Claim C2, amended: for every input text that no decoder changes and
every positive `max_iterations`, `decode` returns `complete = false` and
`iterations = 0`, but with `reason` equal to the empty string — the
`"no_progress"` reason of the claim is never written on this path. -/
theorem C2_no_progress (t : List Char) (m : Nat) (H : noDecoderProgresses t)
    (hm : 0 < m) :
    (decode t m).complete = false ∧ (decode t m).reason = "" ∧
      (decode t m).iterations = 0 := by
  have hstate : decodeLoop (m + 1) (mkDecoderState t t m) = mkDecoderState t t m := by
    obtain ⟨m', rfl⟩ : ∃ m', m = m' + 1 := ⟨m - 1, by omega⟩
    show decodeLoop (m' + 2) (mkDecoderState t t (m' + 1)) = _
    unfold decodeLoop
    have hcont : (should_continue (mkDecoderState t t (m' + 1))).1 = true := by
      simp [should_continue, mkDecoderState, is_loop_detected]
    rw [if_pos hcont]
    have hs0 : (should_continue (mkDecoderState t t (m' + 1))).2 =
        mkDecoderState t t (m' + 1) := (should_continue_true _ hcont).1
    rw [hs0, decode_iteration_noprog _ (by simpa [mkDecoderState] using H)]
    simp
  simp only [decode, decodeWith]
  rw [hstate]
  simp [to_dict, mkDecoderState]

/-- Witness for C2 at the empty input with the default cap 10. -/
theorem C2_witness :
    (decode (chars "") 10).complete = false ∧ (decode (chars "") 10).reason = "" ∧
      (decode (chars "") 10).iterations = 0 :=
  C2_no_progress (chars "") 10 C2_counterexample.1 (by omega)

/-! ## Claim C3 -/

/-- The generic shape of `try_all_decoders`: every kept result differs
from the input. -/
theorem foldr_tryall_ne (t : List Char)
    (L : List (String × (List Char → Except Unit (List Char)))) :
    ∀ p ∈ L.foldr
      (fun (q : String × (List Char → Except Unit (List Char))) acc =>
        match q.2 t with
        | .ok r => if r ≠ t then (q.1, r) :: acc else acc
        | .error _ => acc) [],
      p.2 ≠ t := by
  induction L with
  | nil => simp
  | cons q L ih =>
    intro p hp
    rw [List.foldr_cons] at hp
    rcases hres : q.2 t with e | r
    · rw [hres] at hp
      dsimp only at hp
      exact ih p hp
    · rw [hres] at hp
      dsimp only at hp
      split_ifs at hp with hne
      · rcases List.mem_cons.mp hp with hh | hh
        · subst hh; exact hne
        · exact ih p hh
      · exact ih p hp

/-- Every result of `try_all_decoders` differs from the input text. -/
theorem try_all_mem_ne (t : List Char) :
    ∀ p ∈ try_all_decoders t, p.2 ≠ t :=
  foldr_tryall_ne t decodersList

/-- The no-change validator is the only source of FAILED: when the decoded
text differs from the original, the validation status is never FAILED. -/
theorem validate_ne_failed (original decoded : List Char) (h : original ≠ decoded) :
    (validate_decoded_result original decoded).status ≠ "FAILED" := by
  unfold validate_decoded_result
  rw [if_neg h]
  split_ifs <;> (try split) <;>
    first
      | exact (by decide : ("COMPLETE" : String) ≠ "FAILED")
      | exact (by decide : ("PARTIAL" : String) ≠ "FAILED")

/-- `finishIteration` appends exactly one entry to each of the chain, the
history and the scores, and increments the iteration count. -/
theorem finishIteration_frame (s : DecoderState) (name : String) (decoded : List Char)
    (conf : ℚ) :
    (finishIteration s name decoded conf).2.encoding_chain = s.encoding_chain ++ [name] ∧
      (finishIteration s name decoded conf).2.text_history = s.text_history ++ [decoded] ∧
      (finishIteration s name decoded conf).2.confidence_scores =
        s.confidence_scores ++ [conf] ∧
      (finishIteration s name decoded conf).2.iteration_count = s.iteration_count + 1 := by
  unfold finishIteration
  split_ifs <;> simp [record_decode]

/-- Claim C3: in `decode_iteration`, a FAILED validator outcome never
occurs — the validated text always differs from `current_text` (the
primary branch requires a change and the fallback filters unchanged
results), so the no-change validator, the only producer of FAILED, cannot
fire; the claim's FAILED clause therefore holds vacuously.  Every
iteration that reaches validation (all of which have a non-FAILED outcome)
appends exactly one entry to each of `encoding_chain`, `text_history` and
`confidence_scores` and increments `iteration_count` by one, and every
other iteration leaves the state completely unchanged. -/
theorem C3_validator_frame : ∀ s : DecoderState,
    (decode_iteration s).2 = s ∨
      ∃ name decoded conf,
        decoded ≠ s.current_text ∧
        (validate_decoded_result s.current_text decoded).status ≠ "FAILED" ∧
        (decode_iteration s).2.encoding_chain = s.encoding_chain ++ [name] ∧
        (decode_iteration s).2.text_history = s.text_history ++ [decoded] ∧
        (decode_iteration s).2.confidence_scores = s.confidence_scores ++ [conf] ∧
        (decode_iteration s).2.iteration_count = s.iteration_count + 1 := by
  intro s
  unfold decode_iteration
  split
  · left; rfl
  · rename_i decoder_name confidence heq
    split_ifs with hguard
    · cases htry : try_alternative_decoders s.current_text with
      | none => left; rfl
      | some triple =>
        obtain ⟨n', d', c'⟩ := triple
        right
        have hd' : d' ≠ s.current_text := by
          unfold try_alternative_decoders at htry
          cases h2 : try_all_decoders s.current_text with
          | nil => rw [h2] at htry; cases htry
          | cons q rest =>
            rw [h2] at htry
            cases htry
            exact try_all_mem_ne s.current_text q (h2 ▸ List.mem_cons_self q rest)
        exact ⟨n', d', c', hd', validate_ne_failed _ _ (Ne.symm hd'),
          (finishIteration_frame ..).1, (finishIteration_frame ..).2.1,
          (finishIteration_frame ..).2.2.1, (finishIteration_frame ..).2.2.2⟩
    · right
      have hne : (apply_decoder decoder_name s.current_text).2 ≠ s.current_text := by
        intro h
        exact hguard (by simp [h])
      exact ⟨decoder_name, (apply_decoder decoder_name s.current_text).2, confidence, hne,
        validate_ne_failed _ _ (Ne.symm hne),
        (finishIteration_frame ..).1, (finishIteration_frame ..).2.1,
        (finishIteration_frame ..).2.2.1, (finishIteration_frame ..).2.2.2⟩

/-! ## Claim C5 -/

/-- Claim C5: for every confidence table produced by
`identify_likely_encoding`, `_select_decoder` (sort by descending
confidence with Python's stable sort, then take the first entry above the
0.3 threshold) returns exactly the spec's selection: the entry with the
highest confidence among those strictly above 0.3 — none when nothing
clears the threshold — with ties at the maximum resolved in favour of the
entry earlier in the fixed order base64, hex, rot13, url
(`selectionSpec` picks the first maximal above-threshold entry). -/
theorem C5_selection : ∀ (a : TextAnalysis),
    select_decoder (identify_likely_encoding a) =
      selectionSpec (identify_likely_encoding a) := by
  intro a
  unfold identify_likely_encoding
  split_ifs <;> decide

/-! ## Claim C1 -/

/-- The result of running `decode` (default `max_iterations = 10`) on
`Base64(Hex("CTF{secret}")) = "NDM1NDQ2N2I3MzY1NjM3MjY1NzQ3ZA=="`: the
base64 layer is removed in iteration 1, and the resulting pure-hex string
`"4354467b7365637265747d"` (printable ratio 1, entropy ≈ 2.77 < 4.5) is
classified by the natural-language validator as COMPLETE, so the run stops
after a single iteration without ever applying the hex decoder. -/
theorem C1_run :
    decode (chars "NDM1NDQ2N2I3MzY1NjM3MjY1NzQ3ZA==") 10 =
      { original_text := chars "NDM1NDQ2N2I3MzY1NjM3MjY1NzQ3ZA=="
        final_text := chars "4354467b7365637265747d"
        encoding_chain := ["base64"]
        iterations := 1
        complete := true
        reason := "Natural language detected (high printable ratio, low entropy)"
        history := [chars "NDM1NDQ2N2I3MzY1NjM3MjY1NzQ3ZA==",
          chars "4354467b7365637265747d"]
        confidence_scores := [mkRat 95 100]
        attempted_decodings := [(chars "NDM1NDQ2N2I3MzY1NjM3MjY1NzQ3ZA==", "base64")]
        success := true } := by
  decide

/-- Counterexample to claim C1: on `Base64(Hex("CTF{secret}"))`, `decode`
does not produce the encoding chain `["base64", "hex"]` (and its final
text is the intermediate hex string, not `"CTF{secret}"`). -/
theorem C1_counterexample :
    (decode (chars "NDM1NDQ2N2I3MzY1NjM3MjY1NzQ3ZA==") 10).encoding_chain ≠
      ["base64", "hex"] := by
  rw [C1_run]
  decide

/-- Claim C1, amended: on `Base64(Hex("CTF{secret}"))` with the default
`max_iterations = 10`, `decode` terminates after exactly 1 iteration (so
within 2), but with `encoding_chain = ["base64"]` and `final_text` equal
to the intermediate hex string `"4354467b7365637265747d"` rather than
`"CTF{secret}"`: the hex layer is mistaken for natural language by the
validator chain and the run completes early. -/
theorem C1_amended :
    (decode (chars "NDM1NDQ2N2I3MzY1NjM3MjY1NzQ3ZA==") 10).iterations = 1 ∧
      (decode (chars "NDM1NDQ2N2I3MzY1NjM3MjY1NzQ3ZA==") 10).complete = true ∧
      (decode (chars "NDM1NDQ2N2I3MzY1NjM3MjY1NzQ3ZA==") 10).encoding_chain = ["base64"] ∧
      (decode (chars "NDM1NDQ2N2I3MzY1NjM3MjY1NzQ3ZA==") 10).final_text =
        chars "4354467b7365637265747d" ∧
      (decode (chars "NDM1NDQ2N2I3MzY1NjM3MjY1NzQ3ZA==") 10).final_text ≠
        chars "CTF\x7bsecret\x7d" ∧
      (decode (chars "NDM1NDQ2N2I3MzY1NjM3MjY1NzQ3ZA==") 10).reason =
        "Natural language detected (high printable ratio, low entropy)" := by
  rw [C1_run]
  refine ⟨rfl, rfl, rfl, rfl, ?_, rfl⟩
  decide

/-! ## Claim C6 -/

/-- Counterexample to claim C6: `decode` runs that enumerate the
`attempted_decodings` set in different orders (both orders realisable,
since CPython's set iteration order for strings depends on per-process
hash randomisation) return different result dictionaries on the same
input with the same `max_iterations` — the `attempted_decodings` lists
differ in order. -/
theorem C6_counterexample :
    decodeWith List.reverse
        (chars "YWJjZGVmZ2hpamtsbW5vcHFyc3R1dnd4eXowMTIzNDU2Nzg5") 10 ≠
      decodeWith (fun l => l)
        (chars "YWJjZGVmZ2hpamtsbW5vcHFyc3R1dnd4eXowMTIzNDU2Nzg5") 10 := by
  decide

/-- Claim C6, amended: two runs of `decode` on identical input text with
identical `max_iterations` agree on every field of the result — original
and final text, encoding chain, iteration count, completion flag, reason,
history, confidence scores, success — except possibly the order of
`attempted_decodings`, which is the same list up to permutation (its order
comes from iterating a Python `set`, modelled by the arbitrary
enumerations `enum1`, `enum2`). -/
theorem C6_deterministic (enum1 enum2 : List (List Char × String) → List (List Char × String))
    (h1 : ∀ l, List.Perm (enum1 l) l) (h2 : ∀ l, List.Perm (enum2 l) l)
    (t : List Char) (m : Nat) :
    (decodeWith enum1 t m).final_text = (decodeWith enum2 t m).final_text ∧
      (decodeWith enum1 t m).encoding_chain = (decodeWith enum2 t m).encoding_chain ∧
      (decodeWith enum1 t m).iterations = (decodeWith enum2 t m).iterations ∧
      (decodeWith enum1 t m).complete = (decodeWith enum2 t m).complete ∧
      (decodeWith enum1 t m).reason = (decodeWith enum2 t m).reason ∧
      (decodeWith enum1 t m).history = (decodeWith enum2 t m).history ∧
      (decodeWith enum1 t m).confidence_scores = (decodeWith enum2 t m).confidence_scores ∧
      (decodeWith enum1 t m).original_text = (decodeWith enum2 t m).original_text ∧
      (decodeWith enum1 t m).success = (decodeWith enum2 t m).success ∧
      List.Perm (decodeWith enum1 t m).attempted_decodings
        (decodeWith enum2 t m).attempted_decodings := by
  refine ⟨rfl, rfl, rfl, rfl, rfl, rfl, rfl, rfl, rfl, ?_⟩
  unfold decodeWith to_dict
  exact ((h1 _).trans (h2 _).symm).map _

/-- Witness for C6: the identity and reversing enumerations at the
counterexample input. -/
theorem C6_witness :
    (decodeWith List.reverse
        (chars "YWJjZGVmZ2hpamtsbW5vcHFyc3R1dnd4eXowMTIzNDU2Nzg5") 10).final_text =
      (decodeWith (fun l => l)
        (chars "YWJjZGVmZ2hpamtsbW5vcHFyc3R1dnd4eXowMTIzNDU2Nzg5") 10).final_text ∧
    List.Perm
      (decodeWith List.reverse
        (chars "YWJjZGVmZ2hpamtsbW5vcHFyc3R1dnd4eXowMTIzNDU2Nzg5") 10).attempted_decodings
      (decodeWith (fun l => l)
        (chars "YWJjZGVmZ2hpamtsbW5vcHFyc3R1dnd4eXowMTIzNDU2Nzg5") 10).attempted_decodings :=
  ⟨(C6_deterministic List.reverse (fun l => l) (fun l => l.reverse_perm)
      (fun l => List.Perm.refl l) (chars "YWJjZGVmZ2hpamtsbW5vcHFyc3R1dnd4eXowMTIzNDU2Nzg5")
      10).1,
    (C6_deterministic List.reverse (fun l => l) (fun l => l.reverse_perm)
      (fun l => List.Perm.refl l) (chars "YWJjZGVmZ2hpamtsbW5vcHFyc3R1dnd4eXowMTIzNDU2Nzg5")
      10).2.2.2.2.2.2.2.2.2⟩

/-! ## Claim C7 -/

/-- Counterexample to claim C7: `"SGVs bG8="` is not valid Base64 (it
contains a space), yet `decode_base64` succeeds on it and returns
`"Hello"` — `base64.b64decode` discards characters outside the alphabet
before decoding, so invalid input does not always raise `DecoderError`. -/
theorem C7_counterexample :
    ¬ validBase64Strict (chars "SGVs bG8=") ∧
      decode_base64 (chars "SGVs bG8=") = .ok (chars "Hello") := by
  constructor
  · unfold validBase64Strict
    decide
  · decide

/-- Claim C7, amended: `decode_hex` raises `DecoderError` on every string
that is not valid hexadecimal (a non-hex character after whitespace
removal, or an odd number of digits); `decode_url` raises on every string
without a `%` and on every string unchanged by percent-decoding;
`decode_rot13` is total and never raises; `decode_base64`, however,
discards characters outside the Base64 alphabet before decoding, so it
raises exactly when the retained characters cannot be decoded (it can
succeed on strings that are not valid Base64, e.g. `"SGVs bG8="` →
`"Hello"`). -/
theorem C7_typed_failure :
    (∀ s : List Char, ¬ hexValidInput s → decode_hex s = .error ()) ∧
      (∀ s : List Char, s.contains '%' = false → decode_url s = .error ()) ∧
      (∀ s : List Char, pyUnquote s = s → decode_url s = .error ()) ∧
      (∀ s : List Char, ∃ r, decode_rot13 s = .ok r) ∧
      (∀ s : List Char, decode_base64 s = .error () ↔
        (s.any (fun c => 127 < c.toNat) = true ∨ b64Machine s 0 0 0 = none)) ∧
      decode_base64 (chars "SGVs bG8=") = .ok (chars "Hello") := by
  refine ⟨?_, ?_, ?_, ?_, ?_, by decide⟩
  · intro s h
    unfold decode_hex hexValidInput at *
    have hall : ∀ (X : Bool), ¬((!X) = true) → X = true := by decide
    split_ifs with h1 h2
    · rfl
    · rfl
    · exact absurd ⟨hall _ h1, by omega⟩ h
  · intro s h
    unfold decode_url
    rw [if_pos (by rw [h]; rfl)]
  · intro s h
    unfold decode_url
    split_ifs with h1
    · rfl
    · rfl
  · intro s
    exact ⟨_, rfl⟩
  · intro s
    unfold decode_base64 b64decode
    split_ifs with h1
    · simp [h1]
    · simp only [h1, false_or]
      cases hm : b64Machine s 0 0 0 with
      | none => simp [hm]
      | some bs =>
        simp only [hm]
        cases hu : utf8DecodeStrict bs <;> simp [hu]

/-! ## Entropy model adequacy

The decidable entropy comparators of the pipeline agree with comparisons
of the real-valued `calculate_entropy`. -/

theorem list_sum_map_div (l : List Char) (f : Char → ℝ) (r : ℝ) :
    (l.map (fun x => f x / r)).sum = (l.map f).sum / r := by
  induction l with
  | nil => simp
  | cons x xs ih => simp [ih, add_div]

theorem list_sum_map_sub (l : List Char) (f g : Char → ℝ) :
    (l.map (fun x => f x - g x)).sum = (l.map f).sum - (l.map g).sum := by
  induction l with
  | nil => simp
  | cons x xs ih => simp [ih]; ring

theorem list_sum_map_mul_right (l : List Char) (f : Char → ℝ) (r : ℝ) :
    (l.map (fun x => f x * r)).sum = (l.map f).sum * r := by
  induction l with
  | nil => simp
  | cons x xs ih => simp [ih]; ring

theorem logb_list_prod (l : List ℝ) (hl : ∀ x ∈ l, 0 < x) :
    Real.logb 2 l.prod = (l.map (Real.logb 2)).sum := by
  induction l with
  | nil => simp
  | cons x xs ih =>
    have hx : x ≠ 0 := ne_of_gt (hl x (.head _))
    have hxs : xs.prod ≠ 0 :=
      ne_of_gt (List.prod_pos (fun y hy => hl y (.tail _ hy)))
    rw [List.prod_cons, Real.logb_mul hx hxs, List.map_cons, List.sum_cons,
      ih (fun y hy => hl y (.tail _ hy))]

theorem count_cast_pos (text : List Char) (c : Char) (hc : c ∈ text.dedup) :
    (0 : ℝ) < (text.count c : ℝ) := by
  exact_mod_cast List.count_pos_iff.mpr (List.mem_dedup.mp hc)

theorem calculate_entropy_eq (text : List Char) (h : text ≠ []) :
    calculate_entropy text =
      Real.logb 2 (text.length : ℝ) -
        (text.dedup.map (fun c =>
          (text.count c : ℝ) * Real.logb 2 (text.count c : ℝ))).sum / (text.length : ℝ) := by
  have hn : (0 : ℝ) < (text.length : ℝ) := by
    exact_mod_cast List.length_pos.mpr h
  unfold calculate_entropy
  rw [if_neg h]
  rw [List.map_congr_left (g := fun c =>
      ((text.count c : ℝ) * Real.logb 2 (text.count c : ℝ) -
        (text.count c : ℝ) * Real.logb 2 (text.length : ℝ)) / (text.length : ℝ)) ?_]
  · rw [list_sum_map_div, list_sum_map_sub, list_sum_map_mul_right]
    have hsum : (text.dedup.map (fun c => (text.count c : ℝ))).sum = (text.length : ℝ) := by
      rw [show (fun c => (text.count c : ℝ)) = (fun k : ℕ => (k:ℝ)) ∘ (fun c => text.count c)
        from rfl, ← List.map_map, ← Nat.cast_list_sum, List.sum_map_count_dedup_eq_length]
    rw [hsum]
    field_simp
    ring
  · intro c hc
    have hk := count_cast_pos text c hc
    rw [div_mul_eq_mul_div, Real.logb_div (ne_of_gt hk) (ne_of_gt hn)]
    ring



theorem entropyProd_pos (text : List Char) (b : Nat) : 0 < entropyProd text b := by
  unfold entropyProd counterValues
  apply List.prod_pos
  intro x hx
  rw [List.map_map, List.mem_map] at hx
  obtain ⟨c, hc, rfl⟩ := hx
  exact Nat.pos_pow_of_pos _ (List.count_pos_iff.mpr (List.mem_dedup.mp hc))

theorem entropy_mul_eq (text : List Char) (h : text ≠ []) (b : Nat) :
    (b : ℝ) * (text.length : ℝ) * calculate_entropy text =
      Real.logb 2 ((text.length ^ (b * text.length) : ℕ) : ℝ) -
        Real.logb 2 ((entropyProd text b : ℕ) : ℝ) := by
  have hn : (0 : ℝ) < (text.length : ℝ) := by
    exact_mod_cast List.length_pos.mpr h
  rw [calculate_entropy_eq text h]
  have h1 : ((text.length ^ (b * text.length) : ℕ) : ℝ) =
      ((text.length : ℝ)) ^ (b * text.length) := by push_cast; ring
  rw [h1, Real.logb_pow]
  have h2 : ((entropyProd text b : ℕ) : ℝ) =
      (text.dedup.map (fun c => ((text.count c : ℝ)) ^ (b * text.count c))).prod := by
    unfold entropyProd counterValues
    rw [Nat.cast_list_prod, List.map_map, List.map_map]
    exact congrArg List.prod (List.map_congr_left (fun c hc => by simp only [Function.comp]; push_cast; ring))
  rw [h2, logb_list_prod _ (fun x hx => by
    rw [List.mem_map] at hx
    obtain ⟨c, hc, rfl⟩ := hx
    exact pow_pos (count_cast_pos text c hc) _)]
  rw [List.map_map]
  have h3 : ((fun x => Real.logb 2 x) ∘ fun c => (text.count c : ℝ) ^ (b * text.count c)) =
      fun c => ((b : ℝ) * (text.count c : ℝ)) * Real.logb 2 (text.count c : ℝ) := by
    funext c
    simp only [Function.comp]
    rw [Real.logb_pow]
    push_cast
    ring
  rw [h3]
  have h4 : (text.dedup.map (fun c =>
      ((b : ℝ) * (text.count c : ℝ)) * Real.logb 2 (text.count c : ℝ))).sum =
      (b : ℝ) * (text.dedup.map (fun c =>
        (text.count c : ℝ) * Real.logb 2 (text.count c : ℝ))).sum := by
    induction text.dedup with
    | nil => simp
    | cons x xs ih => simp [ih]; ring
  rw [h4]
  push_cast
  field_simp
  ring



theorem entropyLtb_iff (text : List Char) (a b : Nat) (hb : 0 < b) :
    entropyLtb text a b = true ↔ calculate_entropy text < (a : ℝ) / (b : ℝ) := by
  have hb' : (0 : ℝ) < (b : ℝ) := by exact_mod_cast hb
  by_cases h : text = []
  · subst h
    have hL : entropyLtb [] a b = decide (0 < a) := rfl
    have hC : calculate_entropy [] = 0 := by unfold calculate_entropy; simp
    rw [hL, hC, decide_eq_true_eq, lt_div_iff₀ hb', zero_mul]
    exact Nat.cast_pos.symm
  · have hn : (0 : ℝ) < (text.length : ℝ) := by
      exact_mod_cast List.length_pos.mpr h
    have hbn : (0 : ℝ) < (b : ℝ) * (text.length : ℝ) := by positivity
    have key := entropy_mul_eq text h b
    have hPpos : (0 : ℝ) < ((entropyProd text b : ℕ) : ℝ) := by
      exact_mod_cast entropyProd_pos text b
    have hNpos : (0 : ℝ) < ((text.length ^ (b * text.length) : ℕ) : ℝ) := by
      have : 0 < text.length ^ (b * text.length) :=
        Nat.pos_pow_of_pos _ (List.length_pos.mpr h)
      exact_mod_cast this
    have h2an : Real.logb 2 ((2 : ℝ) ^ (a * text.length)) = (a : ℝ) * (text.length : ℝ) := by
      rw [Real.logb_pow, Real.logb_self_eq_one (by norm_num)]
      push_cast
      ring
    have hsplit : Real.logb 2 ((2 : ℝ) ^ (a * text.length) * ((entropyProd text b : ℕ) : ℝ)) =
        (a : ℝ) * (text.length : ℝ) + Real.logb 2 ((entropyProd text b : ℕ) : ℝ) := by
      rw [Real.logb_mul (by positivity) (ne_of_gt hPpos), h2an]
    have hcast : ((2 ^ (a * text.length) * entropyProd text b : ℕ) : ℝ) =
        (2 : ℝ) ^ (a * text.length) * ((entropyProd text b : ℕ) : ℝ) := by
      push_cast
      ring
    have hfrac : (b : ℝ) * (text.length : ℝ) * ((a : ℝ) / (b : ℝ)) =
        (a : ℝ) * (text.length : ℝ) := by
      field_simp
      ring
    unfold entropyLtb
    rw [if_neg h, decide_eq_true_eq]
    constructor
    · intro hlt
      have hreal : ((text.length ^ (b * text.length) : ℕ) : ℝ) <
          ((2 ^ (a * text.length) * entropyProd text b : ℕ) : ℝ) := by
        exact_mod_cast hlt
      rw [hcast] at hreal
      have hlog := (Real.logb_lt_logb_iff one_lt_two hNpos (by positivity)).mpr hreal
      rw [hsplit] at hlog
      have : (b : ℝ) * (text.length : ℝ) * calculate_entropy text <
          (b : ℝ) * (text.length : ℝ) * ((a : ℝ) / (b : ℝ)) := by
        rw [key, hfrac]
        linarith
      exact lt_of_mul_lt_mul_left this (le_of_lt hbn)
    · intro hlt
      have h1 : (b : ℝ) * (text.length : ℝ) * calculate_entropy text <
          (b : ℝ) * (text.length : ℝ) * ((a : ℝ) / (b : ℝ)) :=
        mul_lt_mul_of_pos_left hlt hbn
      rw [key, hfrac] at h1
      have hlog : Real.logb 2 ((text.length ^ (b * text.length) : ℕ) : ℝ) <
          Real.logb 2 ((2 : ℝ) ^ (a * text.length) * ((entropyProd text b : ℕ) : ℝ)) := by
        rw [hsplit]
        linarith
      have hreal := (Real.logb_lt_logb_iff one_lt_two hNpos (by positivity)).mp hlog
      rw [← hcast] at hreal
      exact_mod_cast hreal

theorem entropyGtb_iff (text : List Char) (a b : Nat) (hb : 0 < b) :
    entropyGtb text a b = true ↔ (a : ℝ) / (b : ℝ) < calculate_entropy text := by
  have hb' : (0 : ℝ) < (b : ℝ) := by exact_mod_cast hb
  by_cases h : text = []
  · subst h
    have hG : entropyGtb [] a b = false := rfl
    have hC : calculate_entropy [] = 0 := by unfold calculate_entropy; simp
    rw [hG, hC]
    constructor
    · intro hfalse
      cases hfalse
    · intro hlt
      exfalso
      have hnn : (0 : ℝ) ≤ (a : ℝ) / (b : ℝ) := by positivity
      linarith
  · have hn : (0 : ℝ) < (text.length : ℝ) := by
      exact_mod_cast List.length_pos.mpr h
    have hbn : (0 : ℝ) < (b : ℝ) * (text.length : ℝ) := by positivity
    have key := entropy_mul_eq text h b
    have hPpos : (0 : ℝ) < ((entropyProd text b : ℕ) : ℝ) := by
      exact_mod_cast entropyProd_pos text b
    have hNpos : (0 : ℝ) < ((text.length ^ (b * text.length) : ℕ) : ℝ) := by
      have : 0 < text.length ^ (b * text.length) :=
        Nat.pos_pow_of_pos _ (List.length_pos.mpr h)
      exact_mod_cast this
    have h2an : Real.logb 2 ((2 : ℝ) ^ (a * text.length)) = (a : ℝ) * (text.length : ℝ) := by
      rw [Real.logb_pow, Real.logb_self_eq_one (by norm_num)]
      push_cast
      ring
    have hsplit : Real.logb 2 ((2 : ℝ) ^ (a * text.length) * ((entropyProd text b : ℕ) : ℝ)) =
        (a : ℝ) * (text.length : ℝ) + Real.logb 2 ((entropyProd text b : ℕ) : ℝ) := by
      rw [Real.logb_mul (by positivity) (ne_of_gt hPpos), h2an]
    have hcast : ((2 ^ (a * text.length) * entropyProd text b : ℕ) : ℝ) =
        (2 : ℝ) ^ (a * text.length) * ((entropyProd text b : ℕ) : ℝ) := by
      push_cast
      ring
    have hfrac : (b : ℝ) * (text.length : ℝ) * ((a : ℝ) / (b : ℝ)) =
        (a : ℝ) * (text.length : ℝ) := by
      field_simp
      ring
    unfold entropyGtb
    rw [if_neg h, decide_eq_true_eq]
    constructor
    · intro hlt
      have hreal : ((2 ^ (a * text.length) * entropyProd text b : ℕ) : ℝ) <
          ((text.length ^ (b * text.length) : ℕ) : ℝ) := by
        exact_mod_cast hlt
      rw [hcast] at hreal
      have hlog := (Real.logb_lt_logb_iff one_lt_two (by positivity) hNpos).mpr hreal
      rw [hsplit] at hlog
      have hmul : (b : ℝ) * (text.length : ℝ) * ((a : ℝ) / (b : ℝ)) <
          (b : ℝ) * (text.length : ℝ) * calculate_entropy text := by
        rw [key, hfrac]
        linarith
      exact lt_of_mul_lt_mul_left hmul (le_of_lt hbn)
    · intro hlt
      have h1 : (b : ℝ) * (text.length : ℝ) * ((a : ℝ) / (b : ℝ)) <
          (b : ℝ) * (text.length : ℝ) * calculate_entropy text :=
        mul_lt_mul_of_pos_left hlt hbn
      rw [key, hfrac] at h1
      have hlog : Real.logb 2 ((2 : ℝ) ^ (a * text.length) * ((entropyProd text b : ℕ) : ℝ)) <
          Real.logb 2 ((text.length ^ (b * text.length) : ℕ) : ℝ) := by
        rw [hsplit]
        linarith
      have hreal := (Real.logb_lt_logb_iff one_lt_two (by positivity) hNpos).mp hlog
      rw [← hcast] at hreal
      exact_mod_cast hreal

end Decoder
